import Mathlib

/-!
Verification development for the khoj conversation pipeline
(`src/khoj/processor/conversation/utils.py` and
`src/khoj/processor/conversation/openai/gpt.py`).

The Python code is shallowly embedded: the `ThreadedGenerator` streaming
relay becomes an explicit state record whose queue is a list of items, the
message-truncation and history-encoding functions become pure Lean
functions over `List`s and `String`s, and tokenizers become an abstract
`Encoder` record (`encode`/`decode`), since the concrete tokenizers
(tiktoken, HuggingFace) are external libraries.  Python operations such as
negative-slice indexing, `str.split`, `str.join` and `str.strip` are
modelled by dedicated functions that reproduce their semantics.
-/

namespace Khoj

/-- A chat message as used throughout `utils.py` (langchain `ChatMessage`). -/
structure ChatMessage where
  content : String
  role : String
deriving DecidableEq, Repr

/-! ## StreamRelay: `ThreadedGenerator` -/

/-- An item in the `queue.Queue` of `ThreadedGenerator`: either a text chunk
put by `send`/`close`, or the `StopIteration` sentinel put by `close`. -/
inductive QItem where
  | chunk (s : String)
  | stop
deriving DecidableEq, Repr

/-- Model of `json.dumps` applied to the compiled-references list
(a list of snippet records, modelled as their rendered strings). -/
def dumpsRefs (refs : List String) : String :=
  "[" ++ String.intercalate ", " (refs.map fun s => "\"" ++ s ++ "\"") ++ "]"

/-- Model of `json.dumps` applied to the online-results mapping
(a dict, modelled as a key/value association list). -/
def dumpsOnline (online : List (String × String)) : String :=
  "\x7b" ++ String.intercalate ", "
    (online.map fun kv => "\"" ++ kv.1 ++ "\": \"" ++ kv.2 ++ "\"") ++ "\x7d"

/-- State of a `ThreadedGenerator`: its queue, the contexts captured at
construction, whether a completion callback was supplied, and the
accumulated `response` buffer. -/
structure ThreadedGenerator where
  queue : List QItem
  compiled_references : List String
  online_results : List (String × String)
  has_completion_func : Bool
  response : String
deriving DecidableEq, Repr

/-- `ThreadedGenerator.__init__`: empty queue, empty accumulated response. -/
def TGInit (refs : List String) (online : List (String × String))
    (cb : Bool) : ThreadedGenerator :=
  { queue := [], compiled_references := refs, online_results := online,
    has_completion_func := cb, response := "" }

/-- `ThreadedGenerator.send`: append `data` to the accumulated response and
put it on the queue. -/
def TGSend (g : ThreadedGenerator) (data : String) : ThreadedGenerator :=
  { g with response := g.response ++ data, queue := g.queue ++ [QItem.chunk data] }

/-- Emit a whole list of chunks, in order, via `send`. -/
def TGSends (g : ThreadedGenerator) (chunks : List String) : ThreadedGenerator :=
  chunks.foldl TGSend g

/-- `ThreadedGenerator.close`: conditionally put the compiled-references
trailer, then the online-results trailer (the source reuses the
"### compiled references:" label for both), then the sentinel. -/
def TGClose (g : ThreadedGenerator) : ThreadedGenerator :=
  { g with queue := g.queue ++
      ((if g.compiled_references ≠ [] then
          [QItem.chunk ("### compiled references:" ++ dumpsRefs g.compiled_references)]
        else []) ++
       (if g.online_results ≠ [] then
          [QItem.chunk ("### compiled references:" ++ dumpsOnline g.online_results)]
        else []) ++
       [QItem.stop]) }

/-- The chunk strings `close` enqueues before the sentinel. -/
def trailerChunks (refs : List String) (online : List (String × String)) :
    List String :=
  (if refs ≠ [] then ["### compiled references:" ++ dumpsRefs refs] else []) ++
  (if online ≠ [] then ["### compiled references:" ++ dumpsOnline online] else [])

/-- The consumer loop over the queue items: a Python `for` loop calling
`__next__` repeatedly.  Returns the chunks delivered to the consumer (in
order) and the list of arguments the completion callback was invoked with.
Iteration ends at the first `StopIteration` sentinel, at which point
`__next__` invokes the completion callback (if present) with the
accumulated `response` before raising; an empty queue blocks, delivering
nothing further. -/
def drainQueue (response : String) (cb : Bool) :
    List QItem → List String × List String
  | [] => ([], [])
  | QItem.stop :: _ => ([], if cb then [response] else [])
  | QItem.chunk d :: rest =>
      let r := drainQueue response cb rest
      (d :: r.1, r.2)

/-- Consume a relay: iterate its queue with its accumulated response. -/
def TGConsume (g : ThreadedGenerator) : List String × List String :=
  drainQueue g.response g.has_completion_func g.queue

/-! ### StreamRelay lemmas -/

theorem String.join_cons (c : String) (cs : List String) :
    String.join (c :: cs) = c ++ String.join cs := by
  have haux : ∀ (l : List String) (a b : String),
      l.foldl (· ++ ·) (a ++ b) = a ++ l.foldl (· ++ ·) b := by
    intro l
    induction l with
    | nil => intro a b; rfl
    | cons x xs ih =>
        intro a b
        show xs.foldl (· ++ ·) (a ++ b ++ x) = _
        rw [String.append_assoc, ih]
        rfl
  show cs.foldl (· ++ ·) ("" ++ c) = c ++ cs.foldl (· ++ ·) ""
  simpa using haux cs c ""

theorem TGSends_spec (chunks : List String) : ∀ g : ThreadedGenerator,
    TGSends g chunks =
      { g with response := g.response ++ String.join chunks,
               queue := g.queue ++ chunks.map QItem.chunk } := by
  induction chunks with
  | nil => intro g; simp [TGSends, String.join]
  | cons c cs ih =>
      intro g
      show TGSends (TGSend g c) cs = _
      rw [ih]
      simp [TGSend, String.join_cons, String.append_assoc]

theorem drainQueue_chunks (response : String) (cb : Bool) (cs : List String)
    (rest : List QItem) :
    drainQueue response cb (cs.map QItem.chunk ++ rest) =
      (cs ++ (drainQueue response cb rest).1, (drainQueue response cb rest).2) := by
  induction cs with
  | nil => simp
  | cons c cs ih => simp [drainQueue, ih]

theorem drainQueue_stop_append (response : String) (cb : Bool)
    (q extra : List QItem) (h : QItem.stop ∈ q) :
    drainQueue response cb (q ++ extra) = drainQueue response cb q := by
  induction q with
  | nil => cases h
  | cons i rest ih =>
      cases i with
      | stop => simp [drainQueue]
      | chunk d =>
          have h' : QItem.stop ∈ rest := by
            rcases List.mem_cons.mp h with h0 | hm
            · exact QItem.noConfusion h0
            · exact hm
          simp [drainQueue, ih h']

theorem TGClose_queue (g : ThreadedGenerator) :
    (TGClose g).queue = g.queue ++
      ((trailerChunks g.compiled_references g.online_results).map QItem.chunk
        ++ [QItem.stop]) := by
  simp only [TGClose, trailerChunks, List.map_append]
  by_cases h1 : g.compiled_references = [] <;>
    by_cases h2 : g.online_results = [] <;>
      simp [h1, h2]

theorem stop_mem_TGClose (g : ThreadedGenerator) : QItem.stop ∈ (TGClose g).queue := by
  rw [TGClose_queue]
  simp

theorem TGClose_response (g : ThreadedGenerator) : (TGClose g).response = g.response := rfl

theorem TGClose_cb (g : ThreadedGenerator) :
    (TGClose g).has_completion_func = g.has_completion_func := rfl

theorem TGClose_refs (g : ThreadedGenerator) :
    (TGClose g).compiled_references = g.compiled_references := rfl

theorem TGClose_online (g : ThreadedGenerator) :
    (TGClose g).online_results = g.online_results := rfl

/-- C1: the relay delivers emitted chunks to the consumer in emission order
(followed only by the close trailers), and the completion callback is
invoked exactly once, with the exact concatenation of the emitted chunks,
at the sentinel — i.e. before iteration signals completion. -/
theorem streamRelay_order_and_callback
    (chunks : List String) (refs : List String)
    (online : List (String × String)) :
    TGConsume (TGClose (TGSends (TGInit refs online true) chunks)) =
      (chunks ++ trailerChunks refs online, [String.join chunks]) := by
  have hs := TGSends_spec chunks (TGInit refs online true)
  simp only [TGInit] at hs
  simp only [TGConsume, TGClose_response, TGClose_cb, TGClose_queue, TGInit, hs,
    List.nil_append, List.append_assoc]
  rw [drainQueue_chunks, drainQueue_chunks]
  simp [drainQueue]

/-- C2: a second `close()` on the same relay changes nothing the consumer
observes: iteration ends at the first sentinel, so the consumer sees the
same chunks and the completion callback is observed exactly once, with the
concatenation of the emitted chunks. -/
theorem streamRelay_double_close
    (chunks : List String) (refs : List String)
    (online : List (String × String)) :
    TGConsume (TGClose (TGClose (TGSends (TGInit refs online true) chunks))) =
      TGConsume (TGClose (TGSends (TGInit refs online true) chunks)) ∧
    TGConsume (TGClose (TGClose (TGSends (TGInit refs online true) chunks))) =
      (chunks ++ trailerChunks refs online, [String.join chunks]) := by
  have heq : TGConsume (TGClose (TGClose (TGSends (TGInit refs online true) chunks))) =
      TGConsume (TGClose (TGSends (TGInit refs online true) chunks)) := by
    simp only [TGConsume, TGClose_response, TGClose_cb]
    conv_lhs => rw [TGClose_queue]
    exact drainQueue_stop_append _ _ _ _
      (stop_mem_TGClose (TGSends (TGInit refs online true) chunks))
  refine ⟨heq, ?_⟩
  rw [heq]
  exact streamRelay_order_and_callback chunks refs online

/-- C10: with non-empty compiled references and non-empty online results,
`close` enqueues exactly two trailer chunks, both carrying the literal
"### compiled references:" label (the online trailer reuses it), and the
completion callback still receives only the concatenation of the emitted
chunks — the trailers are not accumulated into `response`. -/
theorem streamRelay_trailers
    (chunks : List String) (refs : List String)
    (online : List (String × String))
    (href : refs ≠ []) (honline : online ≠ []) :
    (∃ r1 r2 : String,
      (TGClose (TGSends (TGInit refs online true) chunks)).queue =
        chunks.map QItem.chunk ++
          [QItem.chunk ("### compiled references:" ++ r1),
           QItem.chunk ("### compiled references:" ++ r2), QItem.stop]) ∧
    (TGConsume (TGClose (TGSends (TGInit refs online true) chunks))).2 =
      [String.join chunks] := by
  constructor
  · refine ⟨dumpsRefs refs, dumpsOnline online, ?_⟩
    have hs := TGSends_spec chunks (TGInit refs online true)
    simp only [TGInit] at hs
    rw [TGClose_queue]
    simp only [TGInit, hs]
    simp [trailerChunks, href, honline]
  · rw [streamRelay_order_and_callback chunks refs online]

/-- Witness for C10 at concrete inputs. -/
theorem streamRelay_trailers_witness :
    (∃ r1 r2 : String,
      (TGClose (TGSends (TGInit ["r"] [("k", "v")] true) ["a", "b"])).queue =
        (["a", "b"] : List String).map QItem.chunk ++
          [QItem.chunk ("### compiled references:" ++ r1),
           QItem.chunk ("### compiled references:" ++ r2), QItem.stop]) ∧
    (TGConsume (TGClose (TGSends (TGInit ["r"] [("k", "v")] true) ["a", "b"]))).2 =
      [String.join ["a", "b"]] :=
  streamRelay_trailers ["a", "b"] ["r"] [("k", "v")]
    (by decide) (by decide)

/-! ## MessageTruncator: `truncate_messages` -/

/-- A tokenizer handle: `encode(text) -> token ids`, `decode(ids) -> text`.
The concrete tokenizers (tiktoken, HuggingFace, llama.cpp) are external
collaborators, so they are kept abstract. -/
structure Encoder where
  encode : String → List Nat
  decode : List Nat → String

/-- Token cost of one string: `len(encoder.encode(s))`. -/
def encLen (enc : Encoder) (s : String) : Nat := (enc.encode s).length

/-- `sum([len(encoder.encode(message.content)) for message in messages])`
(every content in the embedding is a string, so the `type(...) == str`
guard of the source is always satisfied). -/
def tokenCount (enc : Encoder) (messages : List ChatMessage) : Nat :=
  (messages.map fun m => encLen enc m.content).sum

/-- Python `str.strip()` on the character list: drop whitespace from both
ends. -/
def stripChars (l : List Char) : List Char :=
  ((l.dropWhile Char.isWhitespace).reverse.dropWhile Char.isWhitespace).reverse

/-- Python `str.strip()`. -/
def pyStrip (s : String) : String := ⟨stripChars s.data⟩

/-- Python `str.split(sep)` for a one-character separator, on character
lists: splitting the empty string gives `[""]`, and every separator
occurrence produces a field. -/
def splitCh (c : Char) : List Char → List (List Char)
  | [] => [[]]
  | a :: rest =>
    match splitCh c rest with
    | [] => [[]]
    | h :: t => if a = c then [] :: h :: t else (a :: h) :: t

/-- Python `content.split("\n")`. -/
def pySplitNl (s : String) : List String := (splitCh '\n' s.data).map fun l => ⟨l⟩

/-- Python `"\n".join(parts)`. -/
def joinNl (parts : List String) : String := String.intercalate "\n" parts

/-- `"\n".join(messages[0].content.split("\n")[:-1])`: all lines but the
last. -/
def pyBody (content : String) : String := joinNl (pySplitNl content).dropLast

/-- `f"\n" + "\n".join(messages[0].content.split("\n")[-1:])`: the final
line of the message, with the newline the source prepends. -/
def pyTail (content : String) : String :=
  "\n" ++ joinNl ((pySplitNl content).drop ((pySplitNl content).length - 1))

/-- Python slicing from the left `l[:k]` for a possibly negative `k`: a
negative bound counts from the end. -/
def pyTake (l : List Nat) (k : Int) : List Nat :=
  if 0 ≤ k then l.take k.toNat else l.take (l.length - (-k).toNat)

/-- The system-message extraction loop: pop the first message whose role is
"system" and return it together with the remaining messages in order. -/
def extractSystem : List ChatMessage → Option ChatMessage × List ChatMessage
  | [] => (none, [])
  | m :: rest =>
      if m.role = "system" then (some m, rest)
      else
        let p := extractSystem rest
        (p.1, m :: p.2)

/-- `system_message_tokens`: zero when no system message was found. -/
def sysTokens (enc : Encoder) : Option ChatMessage → Nat
  | some m => encLen enc m.content
  | none => 0

/-- The `while (tokens + system_message_tokens) > max_prompt_size and
len(messages) > 1: messages.pop()` loop, with fuel; fuel at least the list
length makes the fuel immaterial (each iteration shortens the list). -/
def dropLoopFuel (enc : Encoder) (sysT maxT : Nat) :
    Nat → List ChatMessage → List ChatMessage
  | 0, msgs => msgs
  | fuel + 1, msgs =>
      if tokenCount enc msgs + sysT > maxT ∧ msgs.length > 1 then
        dropLoopFuel enc sysT maxT fuel msgs.dropLast
      else msgs

/-- The eviction loop of `truncate_messages`. -/
def dropLoop (enc : Encoder) (sysT maxT : Nat) (msgs : List ChatMessage) :
    List ChatMessage :=
  dropLoopFuel enc sysT maxT msgs.length msgs

/-- `truncate_messages(messages, max_prompt_size, ...)`.  The source indexes
`messages[0]` in its final-truncation branch; when the message list is empty
there, Python raises `IndexError`, modelled by `Except.error`. -/
def truncate_messages (enc : Encoder) (maxT : Nat) (messages : List ChatMessage) :
    Except String (List ChatMessage) :=
  let sys := (extractSystem messages).1
  let rest := (extractSystem messages).2
  let sysT := sysTokens enc sys
  let msgs := dropLoop enc sysT maxT rest
  if tokenCount enc msgs + sysT > maxT then
    match msgs with
    | [] => Except.error "IndexError"
    | m0 :: _ =>
        let current_message := pyBody m0.content
        let original_question := pyTail m0.content
        let oqT := encLen enc original_question
        let remaining : Int := (maxT : Int) - (sysT : Int)
        if remaining > (oqT : Int) then
          let remaining' := remaining - (oqT : Int)
          let truncated :=
            pyStrip (enc.decode (pyTake (enc.encode current_message) remaining'))
          Except.ok ([ChatMessage.mk (truncated ++ original_question) m0.role] ++
            sys.toList)
        else
          let truncated :=
            pyStrip (enc.decode (pyTake (enc.encode original_question) remaining))
          Except.ok ([ChatMessage.mk truncated m0.role] ++ sys.toList)
  else
    Except.ok (msgs ++ sys.toList)

/-- The laws the truncation analysis needs from a tokenizer: concatenation
costs at most the sum of the parts, decode-then-encode does not inflate the
token count, and stripping does not inflate it either. -/
def GoodEncoder (enc : Encoder) : Prop :=
  (∀ a b : String, encLen enc (a ++ b) ≤ encLen enc a + encLen enc b) ∧
  (∀ l : List Nat, encLen enc (enc.decode l) ≤ l.length) ∧
  (∀ s : String, encLen enc (pyStrip s) ≤ encLen enc s)

/-- A concrete tokenizer instance: one token per character. -/
def charEnc : Encoder where
  encode s := s.data.map Char.toNat
  decode l := ⟨l.map Char.ofNat⟩

theorem charEnc_good : GoodEncoder charEnc := by
  refine ⟨?_, ?_, ?_⟩
  · intro a b
    simp [charEnc, encLen, String.data_append]
  · intro l
    simp [charEnc, encLen]
  · intro s
    simp only [charEnc, encLen, pyStrip, stripChars, List.length_map]
    calc (((s.data.dropWhile Char.isWhitespace).reverse.dropWhile
            Char.isWhitespace).reverse).length
        ≤ (s.data.dropWhile Char.isWhitespace).length := by
          rw [List.length_reverse]
          simpa using (List.dropWhile_sublist
            (l := (s.data.dropWhile Char.isWhitespace).reverse)
            Char.isWhitespace).length_le
      _ ≤ s.data.length := (List.dropWhile_sublist Char.isWhitespace).length_le

/-! ### Truncation-loop lemmas -/

theorem dropLast_head? {α : Type} (l : List α) (h : l.length > 1) :
    l.dropLast.head? = l.head? := by
  match l with
  | [] => simp at h
  | [a] => simp at h
  | a :: b :: t => simp

theorem dropLoopFuel_exit (enc : Encoder) (sysT maxT : Nat) :
    ∀ (fuel : Nat) (msgs : List ChatMessage), msgs.length ≤ fuel →
      ¬(tokenCount enc (dropLoopFuel enc sysT maxT fuel msgs) + sysT > maxT ∧
        (dropLoopFuel enc sysT maxT fuel msgs).length > 1) := by
  intro fuel
  induction fuel with
  | zero =>
      intro msgs hlen
      simp only [dropLoopFuel]
      rintro ⟨-, hgt⟩
      omega
  | succ fuel ih =>
      intro msgs hlen
      by_cases hc : tokenCount enc msgs + sysT > maxT ∧ msgs.length > 1
      · simp only [dropLoopFuel, if_pos hc]
        exact ih msgs.dropLast (by rw [List.length_dropLast]; omega)
      · simp only [dropLoopFuel, if_neg hc]
        exact hc

theorem dropLoopFuel_ne_nil (enc : Encoder) (sysT maxT : Nat) :
    ∀ (fuel : Nat) (msgs : List ChatMessage), msgs ≠ [] →
      dropLoopFuel enc sysT maxT fuel msgs ≠ [] := by
  intro fuel
  induction fuel with
  | zero => intro msgs h; simpa [dropLoopFuel] using h
  | succ fuel ih =>
      intro msgs h
      by_cases hc : tokenCount enc msgs + sysT > maxT ∧ msgs.length > 1
      · simp only [dropLoopFuel, if_pos hc]
        apply ih
        have : msgs.dropLast.length > 0 := by
          rw [List.length_dropLast]; omega
        exact List.ne_nil_of_length_pos this
      · simpa [dropLoopFuel, if_neg hc] using h

theorem dropLoopFuel_head? (enc : Encoder) (sysT maxT : Nat) :
    ∀ (fuel : Nat) (msgs : List ChatMessage),
      (dropLoopFuel enc sysT maxT fuel msgs).head? = msgs.head? := by
  intro fuel
  induction fuel with
  | zero => intro msgs; rfl
  | succ fuel ih =>
      intro msgs
      by_cases hc : tokenCount enc msgs + sysT > maxT ∧ msgs.length > 1
      · simp only [dropLoopFuel, if_pos hc]
        rw [ih, dropLast_head? _ hc.2]
      · simp only [dropLoopFuel, if_neg hc]

theorem pyTake_length_le (l : List Nat) (k : Int) : (pyTake l k).length ≤ l.length := by
  unfold pyTake
  split <;> simp

theorem pyTake_length_le_toNat (l : List Nat) (k : Int) (hk : 0 ≤ k) :
    (pyTake l k).length ≤ k.toNat := by
  simp [pyTake, if_pos hk]

/-- C3: whenever the budget covers the token cost of the preserved tail
(the final line, with its prepended newline) of the most recent non-system
message, the messages returned by `truncate_messages` — the extracted
system message excluded — cost at most `max_tokens`, for every tokenizer
satisfying the interface laws of `GoodEncoder`. -/
theorem truncate_within_budget (enc : Encoder) (maxT : Nat)
    (messages : List ChatMessage) (hgood : GoodEncoder enc)
    (hne : (extractSystem messages).2 ≠ [])
    (hb : ∀ m0 : ChatMessage, (extractSystem messages).2.head? = some m0 →
      encLen enc (pyTail m0.content) ≤ maxT) :
    ∃ body : List ChatMessage,
      truncate_messages enc maxT messages =
        Except.ok (body ++ (extractSystem messages).1.toList) ∧
      tokenCount enc body ≤ maxT := by
  obtain ⟨hA, hD, hS⟩ := hgood
  set sys := (extractSystem messages).1 with hsys
  set rest := (extractSystem messages).2 with hrest
  set sysT := sysTokens enc sys with hsysT
  set msgs := dropLoop enc sysT maxT rest with hmsgs
  have hmne : msgs ≠ [] := dropLoopFuel_ne_nil enc sysT maxT rest.length rest hne
  by_cases hover : tokenCount enc msgs + sysT > maxT
  · -- The loop stopped because a single message remained.
    have hexit := dropLoopFuel_exit enc sysT maxT rest.length rest le_rfl
    rw [← dropLoop, ← hmsgs] at hexit
    have hlen1 : msgs.length ≤ 1 := by
      by_contra hgt
      exact hexit ⟨hover, by omega⟩
    obtain ⟨m0, hm0⟩ : ∃ m0, msgs = [m0] := by
      match msgs, hmne, hlen1 with
      | [m0], _, _ => exact ⟨m0, rfl⟩
      | a :: b :: t, _, h1 => simp at h1
    have hhead : rest.head? = some m0 := by
      have := dropLoopFuel_head? enc sysT maxT rest.length rest
      rw [← dropLoop, ← hmsgs, hm0] at this
      exact this.symm
    have hbm0 : encLen enc (pyTail m0.content) ≤ maxT := hb m0 hhead
    simp only [truncate_messages, ← hsys, ← hrest, ← hsysT, ← hmsgs, hm0]
    rw [if_pos (hm0 ▸ hover)]
    set oq := pyTail m0.content with hoq
    set oqT := encLen enc oq with hoqT
    set remaining : Int := (maxT : Int) - (sysT : Int) with hremaining
    by_cases hcase : remaining > (oqT : Int)
    · rw [if_pos hcase]
      set slice := pyTake (enc.encode (pyBody m0.content)) (remaining - (oqT : Int))
        with hslice
      set trunc := pyStrip (enc.decode slice) with htrunc
      refine ⟨[ChatMessage.mk (trunc ++ oq) m0.role], rfl, ?_⟩
      have h1 : encLen enc (trunc ++ oq) ≤ encLen enc trunc + oqT := hA trunc oq
      have h2 : encLen enc trunc ≤ slice.length :=
        le_trans (hS (enc.decode slice)) (hD slice)
      have h3 : slice.length ≤ (remaining - (oqT : Int)).toNat :=
        pyTake_length_le_toNat _ _ (by omega)
      simp only [tokenCount, List.map_cons, List.map_nil, List.sum_cons, List.sum_nil]
      omega
    · rw [if_neg hcase]
      set slice := pyTake (enc.encode oq) remaining with hslice
      set trunc := pyStrip (enc.decode slice) with htrunc
      refine ⟨[ChatMessage.mk trunc m0.role], rfl, ?_⟩
      have h2 : encLen enc trunc ≤ slice.length :=
        le_trans (hS (enc.decode slice)) (hD slice)
      simp only [tokenCount, List.map_cons, List.map_nil, List.sum_cons, List.sum_nil]
      rcases le_or_lt 0 remaining with hpos | hneg
      · have h3 : slice.length ≤ remaining.toNat := pyTake_length_le_toNat _ _ hpos
        omega
      · have h3 : slice.length ≤ (enc.encode oq).length := pyTake_length_le _ _
        have h5 : (enc.encode oq).length = oqT := rfl
        omega
  · refine ⟨msgs, ?_, by omega⟩
    simp only [truncate_messages, ← hsys, ← hrest, ← hsysT, ← hmsgs]
    rw [if_neg hover]

/-- Witness for C3 at a concrete input: budget 3 covers the preserved tail
"\nhi" of the single message "hello\nhi", and the result stays within
budget. -/
theorem truncate_within_budget_witness :
    ∃ body : List ChatMessage,
      truncate_messages charEnc 3 [ChatMessage.mk "hello\nhi" "user"] =
        Except.ok (body ++
          (extractSystem [ChatMessage.mk "hello\nhi" "user"]).1.toList) ∧
      tokenCount charEnc body ≤ 3 :=
  truncate_within_budget charEnc 3 [ChatMessage.mk "hello\nhi" "user"]
    charEnc_good (by decide)
    (by
      intro m0 hm0
      rw [show (extractSystem [ChatMessage.mk "hello\nhi" "user"]).2.head? =
        some (ChatMessage.mk "hello\nhi" "user") from by decide] at hm0
      injection hm0 with hm1
      subst hm1
      decide)

/-! ### C4: the raising corner case of `truncate_messages` -/

theorem exists_ok_ite {α : Type} (c : Prop) [Decidable c] (a b : α) :
    ∃ r : α, (if c then Except.ok a else Except.ok b) = (Except.ok r : Except String α) :=
  if h : c then ⟨a, by rw [if_pos h]⟩ else ⟨b, by rw [if_neg h]⟩

theorem dropLoop_of_within (enc : Encoder) (sysT maxT : Nat)
    (msgs : List ChatMessage) (h : ¬ tokenCount enc msgs + sysT > maxT) :
    dropLoop enc sysT maxT msgs = msgs := by
  cases msgs with
  | nil => rfl
  | cons m t =>
      show dropLoopFuel enc sysT maxT (t.length + 1) (m :: t) = m :: t
      simp only [dropLoopFuel]
      rw [if_neg]
      rintro ⟨hc, -⟩
      exact h hc

/-- C4 (counterexample): with a lone system message whose token cost
exceeds the budget, the source's final-truncation branch evaluates
`messages[0]` on an empty list, so `truncate_messages` raises `IndexError`
instead of returning a best-effort result. -/
theorem truncate_raises_cx :
    truncate_messages charEnc 0 [ChatMessage.mk "x" "system"] =
      Except.error "IndexError" := by
  rfl

/-- C4 (amended): `truncate_messages` does not raise whenever at least one
non-system message is present, or the (possibly absent) system message by
itself fits the budget; with zero non-system messages it then returns
exactly the extracted system message (or nothing).  The remaining corner —
zero non-system messages and an over-budget system message — raises. -/
theorem truncate_no_error (enc : Encoder) (maxT : Nat)
    (messages : List ChatMessage)
    (h : (extractSystem messages).2 ≠ [] ∨
      sysTokens enc (extractSystem messages).1 ≤ maxT) :
    (∃ r : List ChatMessage,
      truncate_messages enc maxT messages = Except.ok r) ∧
    ((extractSystem messages).2 = [] →
      truncate_messages enc maxT messages =
        Except.ok (extractSystem messages).1.toList) := by
  set sys := (extractSystem messages).1 with hsys
  set rest := (extractSystem messages).2 with hrest
  set sysT := sysTokens enc sys with hsysT
  by_cases hr : rest = []
  · have hfit : sysT ≤ maxT := by
      rcases h with h | h
      · exact absurd hr h
      · exact h
    have hval : truncate_messages enc maxT messages = Except.ok sys.toList := by
      simp only [truncate_messages, ← hsys, ← hrest, ← hsysT, hr]
      rw [dropLoop_of_within enc sysT maxT [] (by simp [tokenCount]; omega)]
      rw [if_neg (by simp [tokenCount]; omega)]
      rfl
    exact ⟨⟨sys.toList, hval⟩, fun _ => hval⟩
  · constructor
    · set msgs := dropLoop enc sysT maxT rest with hmsgs
      have hmne : msgs ≠ [] :=
        dropLoopFuel_ne_nil enc sysT maxT rest.length rest hr
      simp only [truncate_messages, ← hsys, ← hrest, ← hsysT, ← hmsgs]
      by_cases hover : tokenCount enc msgs + sysT > maxT
      · rw [if_pos hover]
        cases hm : msgs with
        | nil => exact absurd hm hmne
        | cons m0 t => exact exists_ok_ite _ _ _
      · rw [if_neg hover]
        exact ⟨msgs ++ sys.toList, rfl⟩
    · intro hcontra
      exact absurd hcontra hr

/-- Witness for C4 (amended) at a concrete input: a non-system message is
present, so truncation produces a result even on a zero budget. -/
theorem truncate_no_error_witness :
    (∃ r : List ChatMessage,
      truncate_messages charEnc 0 [ChatMessage.mk "hi" "user"] = Except.ok r) ∧
    ((extractSystem [ChatMessage.mk "hi" "user"]).2 = [] →
      truncate_messages charEnc 0 [ChatMessage.mk "hi" "user"] =
        Except.ok (extractSystem [ChatMessage.mk "hi" "user"]).1.toList) :=
  truncate_no_error charEnc 0 [ChatMessage.mk "hi" "user"] (Or.inl (by decide))

/-! ### C8: truncation as a fixed point -/

/-- C8 (counterexample): a within-budget list whose system message is not
already last is *not* returned unchanged — the source pops the system
message and re-appends it at the end. -/
theorem truncate_not_identity_cx :
    tokenCount charEnc
      [ChatMessage.mk "a" "system", ChatMessage.mk "b" "user"] ≤ 100 ∧
    truncate_messages charEnc 100
      [ChatMessage.mk "a" "system", ChatMessage.mk "b" "user"] =
      Except.ok [ChatMessage.mk "b" "user", ChatMessage.mk "a" "system"] ∧
    [ChatMessage.mk "b" "user", ChatMessage.mk "a" "system"] ≠
      [ChatMessage.mk "a" "system", ChatMessage.mk "b" "user"] :=
  ⟨by decide, rfl, by decide⟩

theorem extractSystem_no_sys (l : List ChatMessage)
    (h : ∀ m ∈ l, m.role ≠ "system") : extractSystem l = (none, l) := by
  induction l with
  | nil => rfl
  | cons m t ih =>
      have hm : m.role ≠ "system" := h m (List.mem_cons_self m t)
      simp only [extractSystem, if_neg hm]
      rw [ih fun x hx => h x (List.mem_cons_of_mem m hx)]

theorem extractSystem_last_sys (l : List ChatMessage) (s : ChatMessage)
    (hs : s.role = "system") (h : ∀ m ∈ l, m.role ≠ "system") :
    extractSystem (l ++ [s]) = (some s, l) := by
  induction l with
  | nil => simp [extractSystem, hs]
  | cons m t ih =>
      have hm : m.role ≠ "system" := h m (List.mem_cons_self m t)
      have ih' := ih fun x hx => h x (List.mem_cons_of_mem m hx)
      simp only [List.cons_append, extractSystem, if_neg hm, List.append_eq, ih']

theorem tokenCount_append (enc : Encoder) (a b : List ChatMessage) :
    tokenCount enc (a ++ b) = tokenCount enc a + tokenCount enc b := by
  simp [tokenCount]

/-- C8 (amended): for every message list already within `max_tokens`
(counting its system message) in which no message before the last has the
system role — in particular any output of `truncate_messages`, which
always re-appends the extracted system message at the tail —
`truncate_messages` returns the list unchanged. -/
theorem truncate_fixed_point (enc : Encoder) (maxT : Nat)
    (l : List ChatMessage) (hbud : tokenCount enc l ≤ maxT)
    (hsys : ∀ m ∈ l.dropLast, m.role ≠ "system") :
    truncate_messages enc maxT l = Except.ok l := by
  cases hl : l.getLast? with
  | none =>
      have : l = [] := List.getLast?_eq_none_iff.mp hl
      subst this
      rfl
  | some s =>
      have hlne : l ≠ [] := by
        intro hnil
        rw [hnil] at hl
        exact Option.noConfusion hl
      have hgl : l.getLast hlne = s := by
        rw [List.getLast?_eq_getLast l hlne] at hl
        exact Option.some.inj hl
      have hdecomp : l.dropLast ++ [s] = l := by
        conv_rhs => rw [← List.dropLast_append_getLast hlne]
        rw [hgl]
      by_cases hrole : s.role = "system"
      · have hex : extractSystem l = (some s, l.dropLast) := by
          conv_lhs => rw [← hdecomp]
          exact extractSystem_last_sys l.dropLast s hrole hsys
        have htok : tokenCount enc l.dropLast + sysTokens enc (some s) ≤ maxT := by
          have h2 : tokenCount enc l.dropLast + tokenCount enc [s] = tokenCount enc l := by
            rw [← tokenCount_append, hdecomp]
          have h3 : tokenCount enc [s] = sysTokens enc (some s) := by
            simp [tokenCount, sysTokens]
          omega
        simp only [truncate_messages, hex]
        rw [dropLoop_of_within enc _ maxT l.dropLast (by omega)]
        rw [if_neg (by omega)]
        rw [Option.toList_some, hdecomp]
      · have hall : ∀ m ∈ l, m.role ≠ "system" := by
          intro m hm
          rw [← hdecomp] at hm
          rcases List.mem_append.mp hm with hm' | hm'
          · exact hsys m hm'
          · rcases List.mem_singleton.mp hm' with rfl
            exact hrole
        have hex : extractSystem l = (none, l) := extractSystem_no_sys l hall
        simp only [truncate_messages, hex]
        rw [dropLoop_of_within enc _ maxT l (by simp [sysTokens]; omega)]
        rw [if_neg (by simp [sysTokens]; omega)]
        simp

/-- Witness for C8 (amended) at a concrete input: a within-budget list with
its system message already last is a fixed point of `truncate_messages`. -/
theorem truncate_fixed_point_witness :
    tokenCount charEnc
      [ChatMessage.mk "b" "user", ChatMessage.mk "a" "system"] ≤ 100 ∧
    (∀ m ∈ ([ChatMessage.mk "b" "user",
        ChatMessage.mk "a" "system"] : List ChatMessage).dropLast,
      m.role ≠ "system") ∧
    truncate_messages charEnc 100
      [ChatMessage.mk "b" "user", ChatMessage.mk "a" "system"] =
      Except.ok [ChatMessage.mk "b" "user", ChatMessage.mk "a" "system"] :=
  ⟨by decide, by decide,
    truncate_fixed_point charEnc 100
      [ChatMessage.mk "b" "user", ChatMessage.mk "a" "system"]
      (by decide) (by decide)⟩

/-! ## HistoryEncoder and BudgetPlanner:
`generate_chatml_messages_with_context` -/

/-- One entry of `conversation_log["chat"]`: its rendered `message` text and
the rendered `context` attachment when that is truthy (a non-empty list). -/
structure ChatEntry where
  message : String
  context : Option String
deriving DecidableEq, Repr

/-- `chat_notes`: the "Notes:" block when context is attached, else a bare
newline. -/
def chatNotes (e : ChatEntry) : String :=
  match e.context with
  | some c => "\n\n Notes:\n" ++ c
  | none => "\n"

/-- `chat_logs`: each entry rendered as message plus notes. -/
def chatLogs (log : List ChatEntry) : List String :=
  log.map fun e => e.message ++ chatNotes e

/-- Every other element of a list, starting from the first: the stride-2
part of Python extended slicing. -/
def everyOther {α : Type} : List α → List α
  | [] => []
  | [a] => [a]
  | a :: _ :: rest => a :: everyOther rest

/-- The pair stream of the `zip(chat_logs[-2::-2], chat_logs[::-2])` loop
header: `chat_logs[-2::-2]` walks indices n-2, n-4, … and `chat_logs[::-2]`
walks n-1, n-3, …. -/
def backPairs (logs : List String) : List (String × String) :=
  (everyOther (logs.reverse.drop 1)).zip (everyOther logs.reverse)

/-- `reciprocal_conversation_to_chatml`: zip the pair with the roles
`["user", "assistant"]`. -/
def reciprocal_conversation_to_chatml (message_pair : List String) :
    List ChatMessage :=
  (message_pair.zip ["user", "assistant"]).map fun p => ChatMessage.mk p.1 p.2

/-- The history loop body: stop once `len(rest_backnforths) >= 2 *
lookback_turns`, else append the role-tagged pair reversed. -/
def buildRest (lookback : Nat) :
    List (String × String) → List ChatMessage → List ChatMessage
  | [], acc => acc
  | p :: rest, acc =>
      if acc.length ≥ 2 * lookback then acc
      else buildRest lookback rest
        (acc ++ (reciprocal_conversation_to_chatml [p.1, p.2]).reverse)

/-- `rest_backnforths` as built by `generate_chatml_messages_with_context`. -/
def restBacknforths (lookback : Nat) (log : List ChatEntry) : List ChatMessage :=
  buildRest lookback (backPairs (chatLogs log)) []

/-- The static `model_to_prompt_size` table. -/
def model_to_prompt_size (name : String) : Option Nat :=
  if name = "gpt-3.5-turbo" then some 12000
  else if name = "gpt-3.5-turbo-0125" then some 12000
  else if name = "gpt-4-0125-preview" then some 20000
  else if name = "gpt-4-turbo-preview" then some 20000
  else if name = "TheBloke/Mistral-7B-Instruct-v0.2-GGUF" then some 3500
  else if name = "NousResearch/Hermes-2-Pro-Mistral-7B-GGUF" then some 3500
  else none

/-- The `if not max_prompt_size:` branch for the no-loaded-local-model
configuration (the only one exercised here): a falsy override (absent or
zero) is replaced by the table budget, with 2000 as the conservative
default for unknown models. -/
def plannedPromptSize (override : Option Nat) (name : String) : Nat :=
  match override with
  | none => (model_to_prompt_size name).getD 2000
  | some n => if n = 0 then (model_to_prompt_size name).getD 2000 else n

/-- `lookback_turns = max_prompt_size // 750`. -/
def lookbackTurns (override : Option Nat) (name : String) : Nat :=
  plannedPromptSize override name / 750

/-- The direct specification of the zip pairing: walking the reversed log,
pair each element with its predecessor, most recent pair first; a leftover
single element (the oldest) is dropped. -/
def pairUpRev {α : Type} : List α → List (α × α)
  | y :: x :: rest => (x, y) :: pairUpRev rest
  | _ => []

theorem everyOther_cons {α : Type} (a : α) (l : List α) :
    everyOther (a :: l) = a :: everyOther (l.drop 1) := by
  cases l <;> rfl

theorem backPairsRev_eq_pairUpRev {α : Type} : ∀ r : List α,
    (everyOther (r.drop 1)).zip (everyOther r) = pairUpRev r
  | [] => rfl
  | [a] => rfl
  | y :: x :: rest => by
      have ih := backPairsRev_eq_pairUpRev rest
      rw [show (y :: x :: rest).drop 1 = x :: rest from rfl,
        everyOther_cons x rest, everyOther_cons y (x :: rest)]
      show ((x :: everyOther (rest.drop 1)).zip (y :: everyOther rest)) = _
      simp only [List.zip_cons_cons, pairUpRev, ih]

theorem backPairs_eq (logs : List String) :
    backPairs logs = pairUpRev logs.reverse :=
  backPairsRev_eq_pairUpRev logs.reverse

theorem buildRest_general (L : Nat) : ∀ (pairs : List (String × String))
    (acc : List ChatMessage) (k : Nat), acc.length = 2 * k →
    buildRest L pairs acc = acc ++ ((pairs.take (L - k)).flatMap fun p =>
      [ChatMessage.mk p.2 "assistant", ChatMessage.mk p.1 "user"]) := by
  intro pairs
  induction pairs with
  | nil => intro acc k hk; simp [buildRest]
  | cons p rest ih =>
      intro acc k hk
      by_cases hstop : acc.length ≥ 2 * L
      · have hLk : L - k = 0 := by omega
        simp [buildRest, if_pos hstop, hLk]
      · have hsub : L - k = (L - (k + 1)) + 1 := by omega
        have hlen : (acc ++ (reciprocal_conversation_to_chatml [p.1, p.2]).reverse).length
            = 2 * (k + 1) := by
          simp [reciprocal_conversation_to_chatml]
          omega
        simp only [buildRest, if_neg hstop]
        rw [ih _ (k + 1) hlen, hsub, List.take_succ_cons, List.flatMap_cons,
          ← List.append_assoc]
        rfl

/-- C6 (amended): the reverse-chronological flattened history list keeps
the zip's pair order (most recent pair first), but inside each flattened
pair the *assistant* message precedes its paired user message, because the
source reverses each role-tagged pair before appending; the final
chronological reversal of the full message list is what restores user
before assistant. -/
theorem history_pairs_flattened (lookback : Nat) (log : List ChatEntry) :
    restBacknforths lookback log =
      ((backPairs (chatLogs log)).take lookback).flatMap fun p =>
        [ChatMessage.mk p.2 "assistant", ChatMessage.mk p.1 "user"] := by
  have h := buildRest_general lookback (backPairs (chatLogs log)) [] 0 (by simp)
  simpa using h

/-- C6 (counterexample): for the two-entry log (user "u1", assistant "a1")
the flattened pre-truncation pair is assistant-first, contradicting the
claim that the user message precedes its paired assistant message. -/
theorem history_pair_order_cx :
    restBacknforths 1 [ChatEntry.mk "u1" none, ChatEntry.mk "a1" none] =
      [ChatMessage.mk "a1\n" "assistant", ChatMessage.mk "u1\n" "user"] ∧
    (restBacknforths 1 [ChatEntry.mk "u1" none, ChatEntry.mk "a1" none]).map
      ChatMessage.role = ["assistant", "user"] := by
  refine ⟨by decide, by decide⟩

theorem pairUpRev_get? {α : Type} : ∀ (r : List α) (i : Nat),
    2 * i + 1 < r.length →
    ∃ x y, r.get? (2 * i + 1) = some x ∧ r.get? (2 * i) = some y ∧
      (pairUpRev r).get? i = some (x, y)
  | [], i, h => by simp at h
  | [a], i, h => by simp at h
  | y :: x :: rest, 0, h => ⟨x, y, rfl, rfl, rfl⟩
  | y :: x :: rest, i + 1, h => by
      have h' : 2 * i + 1 < rest.length := by
        simp only [List.length_cons] at h
        omega
      obtain ⟨x', y', h1, h2, h3⟩ := pairUpRev_get? rest i h'
      refine ⟨x', y', ?_, ?_, ?_⟩
      · rw [show 2 * (i + 1) + 1 = 2 * i + 1 + 1 + 1 by omega,
          List.get?_cons_succ, List.get?_cons_succ]
        exact h1
      · rw [show 2 * (i + 1) = 2 * i + 1 + 1 by omega,
          List.get?_cons_succ, List.get?_cons_succ]
        exact h2
      · show (pairUpRev rest).get? i = some (x', y')
        exact h3

theorem length_flatMap_pairs (l : List (String × String)) :
    (l.flatMap fun p =>
      [ChatMessage.mk p.2 "assistant", ChatMessage.mk p.1 "user"]).length =
      2 * l.length := by
  induction l with
  | nil => rfl
  | cons p rest ih =>
      rw [List.flatMap_cons, List.length_append, ih]
      simp only [List.length_cons, List.length_nil]
      omega

/-- C5 (amended): the encoded history never exceeds `lookback_turns` pairs
(2·lookback messages), and — for logs with an even number of entries, the
shape the turn recorder always produces — the i-th pair of the zip stream
consists of the two chronologically adjacent rendered entries at positions
n-2-2i and n-1-2i of the log, i.e. a user entry followed by its paired
assistant entry, most recent pair first.  (For odd-length logs the zip
drops the *oldest* entry instead of the trailing unpaired one; see the
counterexample.) -/
theorem history_bound_and_adjacency (lookback : Nat) (log : List ChatEntry)
    (heven : 2 ∣ (chatLogs log).length) :
    (restBacknforths lookback log).length ≤ 2 * lookback ∧
    ∀ i, i < (chatLogs log).length / 2 →
      ∃ u a,
        (chatLogs log).get? ((chatLogs log).length - 2 - 2 * i) = some u ∧
        (chatLogs log).get? ((chatLogs log).length - 1 - 2 * i) = some a ∧
        (backPairs (chatLogs log)).get? i = some (u, a) := by
  set ch := chatLogs log with hch
  set n := ch.length with hn
  constructor
  · have hflat := buildRest_general lookback (backPairs ch) [] 0 (by simp)
    have : (restBacknforths lookback log).length =
        2 * ((backPairs ch).take lookback).length := by
      rw [restBacknforths, ← hch, hflat]
      simp only [List.nil_append, Nat.sub_zero]
      exact length_flatMap_pairs _
    rw [this, List.length_take]
    omega
  · intro i hi
    obtain ⟨hd, hdeq⟩ := heven
    have hlt : 2 * i + 1 < ch.reverse.length := by
      rw [List.length_reverse]
      omega
    obtain ⟨x, y, h1, h2, h3⟩ := pairUpRev_get? ch.reverse i hlt
    rw [List.length_reverse] at hlt
    rw [List.get?_reverse (by omega : 2 * i + 1 < ch.length)] at h1
    rw [List.get?_reverse (by omega : 2 * i < ch.length)] at h2
    refine ⟨x, y, ?_, ?_, ?_⟩
    · rw [show n - 2 - 2 * i = ch.length - 1 - (2 * i + 1) by omega]
      exact h1
    · rw [show n - 1 - 2 * i = ch.length - 1 - (2 * i) by omega]
      exact h2
    · rw [backPairs_eq]
      exact h3

/-- Witness for C5 (amended) at a concrete even-length log. -/
theorem history_bound_and_adjacency_witness :
    2 ∣ (chatLogs [ChatEntry.mk "u1" none, ChatEntry.mk "a1" none]).length ∧
    ((restBacknforths 3 [ChatEntry.mk "u1" none,
        ChatEntry.mk "a1" none]).length ≤ 2 * 3 ∧
      ∀ i, i < (chatLogs [ChatEntry.mk "u1" none,
          ChatEntry.mk "a1" none]).length / 2 →
        ∃ u a,
          (chatLogs [ChatEntry.mk "u1" none, ChatEntry.mk "a1" none]).get?
            ((chatLogs [ChatEntry.mk "u1" none,
              ChatEntry.mk "a1" none]).length - 2 - 2 * i) = some u ∧
          (chatLogs [ChatEntry.mk "u1" none, ChatEntry.mk "a1" none]).get?
            ((chatLogs [ChatEntry.mk "u1" none,
              ChatEntry.mk "a1" none]).length - 1 - 2 * i) = some a ∧
          (backPairs (chatLogs [ChatEntry.mk "u1" none,
            ChatEntry.mk "a1" none])).get? i = some (u, a)) :=
  ⟨by decide,
    history_bound_and_adjacency 3 [ChatEntry.mk "u1" none, ChatEntry.mk "a1" none]
      (by decide)⟩

/-- C5 (counterexample): in a three-entry log whose trailing turn has no
paired assistant message yet, the trailing entry is *not* excluded: the zip
drops the oldest entry and pairs the assistant entry "a1" with the
in-flight user entry "u2", which enters the encoded history (role-tagged
"assistant"). -/
theorem history_trailing_turn_cx :
    restBacknforths 5 [ChatEntry.mk "u1" none, ChatEntry.mk "a1" none,
        ChatEntry.mk "u2" none] =
      [ChatMessage.mk "u2\n" "assistant", ChatMessage.mk "a1\n" "user"] ∧
    (ChatMessage.mk "u2\n" "assistant") ∈
      restBacknforths 5 [ChatEntry.mk "u1" none, ChatEntry.mk "a1" none,
        ChatEntry.mk "u2" none] := by
  refine ⟨by decide, by decide⟩

/-- C7: with a falsy `max_prompt_size` override (absent or zero) and no
loaded local model, `lookback_turns` is the static table budget (default
2000 for unknown models) floor-divided by 750, and is zero whenever that
budget is below 750. -/
theorem budget_lookback (override : Option Nat) (name : String)
    (h : override = none ∨ override = some 0) :
    lookbackTurns override name = (model_to_prompt_size name).getD 2000 / 750 ∧
    ((model_to_prompt_size name).getD 2000 < 750 →
      lookbackTurns override name = 0) := by
  have hplan : plannedPromptSize override name =
      (model_to_prompt_size name).getD 2000 := by
    rcases h with rfl | rfl <;> simp [plannedPromptSize]
  constructor
  · rw [lookbackTurns, hplan]
  · intro hlt
    rw [lookbackTurns, hplan]
    exact Nat.div_eq_of_lt hlt

/-- Witness for C7 at a concrete input: an unknown model with no override
gets the conservative default 2000, hence 2 lookback turns. -/
theorem budget_lookback_witness :
    ((none : Option Nat) = none ∨ (none : Option Nat) = some 0) ∧
    (lookbackTurns none "unknown-model" =
        (model_to_prompt_size "unknown-model").getD 2000 / 750 ∧
      ((model_to_prompt_size "unknown-model").getD 2000 < 750 →
        lookbackTurns none "unknown-model" = 0)) :=
  ⟨Or.inl rfl, budget_lookback none "unknown-model" (Or.inl rfl)⟩

/-! ## `extract_questions` response handling (`openai/gpt.py`) -/

/-- A parsed Python JSON value, as produced by `json.loads`. -/
inductive PyJson where
  | null
  | bool (b : Bool)
  | num (n : Int)
  | str (s : String)
  | arr (l : List PyJson)
  | obj (kvs : List (String × PyJson))
deriving Repr

/-- `response["queries"]`: subscripting anything but a dict raises
`TypeError`, a dict without the key raises `KeyError`; both are modelled as
errors. -/
def getQueries : PyJson → Except Unit PyJson
  | PyJson.obj kvs =>
      match kvs.lookup "queries" with
      | some v => Except.ok v
      | none => Except.error ()
  | _ => Except.error ()

/-- Iterating a Python value: lists yield their elements, strings their
characters (as one-character strings), dicts their keys; numbers, booleans
and `None` raise `TypeError`. -/
def pyIterItems : PyJson → Except Unit (List PyJson)
  | PyJson.arr l => Except.ok l
  | PyJson.str s => Except.ok (s.data.map fun c => PyJson.str ⟨[c]⟩)
  | PyJson.obj kvs => Except.ok (kvs.map fun kv => PyJson.str kv.1)
  | _ => Except.error ()

/-- `[q.strip() for q in ... if q.strip()]`: each item must be a string
(anything else has no `strip` attribute and raises), and items that are
empty after stripping are filtered out. -/
def stripFilter : List PyJson → Except Unit (List String)
  | [] => Except.ok []
  | PyJson.str s :: rest => do
      let r ← stripFilter rest
      let t := pyStrip s
      if t ≠ "" then Except.ok (t :: r) else Except.ok r
  | _ :: _ => Except.error ()

/-- The whole `try` body of the response handling in `extract_questions`,
given the outcome of `json.loads(response.strip())` (`Except.error` models
a `JSONDecodeError`). -/
def processResponse (parsed : Except Unit PyJson) : Except Unit (List String) := do
  let v ← parsed
  let q ← getQueries v
  let items ← pyIterItems q
  stripFilter items

/-- The tail of `extract_questions`: any exception in the `try` body falls
back to `[text]`; an empty extracted list (the `not response` test; the
`isinstance` test is always true after the comprehension) also yields
`[text]`. -/
def extract_questions_post (text : String) (parsed : Except Unit PyJson) :
    List String :=
  match processResponse parsed with
  | Except.error _ => [text]
  | Except.ok l => if l = [] then [text] else l

theorem processResponse_ok (v : PyJson) :
    processResponse (Except.ok v) =
      (getQueries v >>= fun q => pyIterItems q >>= fun items =>
        stripFilter items) := rfl

/-- C9: whenever the model response is not a well-formed structured list of
queries — the JSON fails to parse, the "queries" key is missing (or the
value is not even subscriptable), or the queries collapse to the empty list
after stripping — `extract_questions` swallows the failure and returns the
original user text as the sole query. -/
theorem extract_questions_fallback (text : String) (parsed : Except Unit PyJson)
    (h : parsed = Except.error () ∨
      (∃ v, parsed = Except.ok v ∧ getQueries v = Except.error ()) ∨
      (∃ v l, parsed = Except.ok v ∧ getQueries v = Except.ok (PyJson.arr l) ∧
        stripFilter l = Except.ok [])) :
    extract_questions_post text parsed = [text] := by
  rcases h with rfl | ⟨v, rfl, hq⟩ | ⟨v, l, rfl, hq, hs⟩
  · rfl
  · simp only [extract_questions_post, processResponse_ok, hq]
    rfl
  · simp only [extract_questions_post, processResponse_ok, hq]
    show (match (stripFilter l : Except Unit (List String)) with
      | Except.error _ => [text]
      | Except.ok r => if r = [] then [text] else r) = [text]
    rw [hs]
    rfl

/-- Witness for C9 at a concrete input: a response whose "queries" list is
empty after stripping whitespace-only entries. -/
theorem extract_questions_fallback_witness :
    ((Except.ok (PyJson.obj [("queries", PyJson.arr [PyJson.str " "])]) :
        Except Unit PyJson) = Except.error () ∨
      (∃ v, (Except.ok (PyJson.obj [("queries", PyJson.arr [PyJson.str " "])]) :
          Except Unit PyJson) = Except.ok v ∧ getQueries v = Except.error ()) ∨
      (∃ v l, (Except.ok (PyJson.obj [("queries", PyJson.arr [PyJson.str " "])]) :
          Except Unit PyJson) = Except.ok v ∧
        getQueries v = Except.ok (PyJson.arr l) ∧
        stripFilter l = Except.ok [])) ∧
    extract_questions_post "what did I eat"
      (Except.ok (PyJson.obj [("queries", PyJson.arr [PyJson.str " "])])) =
      ["what did I eat"] :=
  ⟨Or.inr (Or.inr ⟨PyJson.obj [("queries", PyJson.arr [PyJson.str " "])],
      [PyJson.str " "], rfl, rfl, rfl⟩),
    extract_questions_fallback "what did I eat"
      (Except.ok (PyJson.obj [("queries", PyJson.arr [PyJson.str " "])]))
      (Or.inr (Or.inr ⟨PyJson.obj [("queries", PyJson.arr [PyJson.str " "])],
        [PyJson.str " "], rfl, rfl, rfl⟩))⟩
